import Mathlib

/-!
Verification of the drone-gcs plugin (drone-plugins/drone-gcs).

This file shallowly embeds the parts of the Go source that the checked
claims are about, and proves (or refutes) each claim against the
embedding.  Side-effecting calls (filesystem, network, libraries) are
abstracted as explicit parameters of the embedded control flow; all the
decision logic, branching and data handling is translated from the
source files `plugin.go`, `main.go` and the additional source copies in
`unnamed/part_002`, `unnamed/part_003`, `unnamed/part_010`.
-/

namespace DroneGcs

/-! ### Result collection (plugin.go Exec lines 146-157, part_002 uploadChunk lines 208-219)

A worker sends one `UploadResult` per file on the `res` channel.  The
coordinating loop receives `len(src)` results; for each result it first
checks `r.err` and calls `p.fatalf` (which is `log.Fatalf`, terminating
the process) when it is non-nil, otherwise it prints `r.name`.  We model
the loop over the arrival order of the results: the returned pair is the
list of names printed before termination, together with the result that
triggered the fatal abort (if any). -/

structure UploadResult where
  name : String
  err : Option String
deriving Repr, DecidableEq

/-- The receive loop of `Exec` (plugin.go:147-155) and `uploadChunk`
(part_002:209-217): on the first result with a non-nil error the loop
invokes `p.fatalf` -- `log.Fatalf`, i.e. the process exits immediately
and no further result is received or printed. -/
def collectResults : List UploadResult → List String × Option UploadResult
  | [] => ([], none)
  | r :: rest =>
    match r.err with
    | some _ => ([], some r)
    | none =>
      let t := collectResults rest
      (r.name :: t.1, t.2)

/-! ### The upload worker (plugin.go Exec lines 128-144, part_002 uploadChunk lines 190-206)

```go
buf <- struct{}{} // alloc one slot
go func(f string) {
    rel, err := filepath.Rel(p.Config.Source, f)
    if err != nil {
        res <- &result{f, err}
        return                    // NOTE: no `<-buf` on this path
    }
    err = p.uploadFile(path.Join(p.Config.Target, rel), f)
    res <- &result{rel, err}
    <-buf // free up
}(f)
```

`filepath.Rel` and `uploadFile` are effectful; we model their outcomes
as parameters and translate the branching verbatim.  `released` records
whether the goroutine executed the `<-buf` release before returning. -/

structure WorkerExit where
  sent : UploadResult
  released : Bool
deriving Repr, DecidableEq

/-- One worker goroutine body, parameterised by the outcome of
`filepath.Rel(p.Config.Source, f)` and by the error (if any) returned by
`p.uploadFile`. -/
def workerBody (f : String) (relResult : Except String String)
    (uploadErr : Option String) : WorkerExit :=
  match relResult with
  | .error e => { sent := ⟨f, some e⟩, released := false }
  | .ok rel => { sent := ⟨rel, uploadErr⟩, released := true }

/-! ### The exit-code accumulator (plugin.go errorf lines 160-166, main.go lines 80-86, part_002 lines 222-228)

`ecode` starts at `0`.  The only statement in the whole program that
writes to it is the body of `errorf` (identical in all three copies),
which sets it to `1` under `ecodeMu`; every other operation leaves it
unchanged.  `main` finally reads it via `os.Exit(ecode)`.  We model a
run as the sequence of operations, abstracted to whether each one is a
call to `errorf`. -/

inductive EcodeOp
  | errorf   -- the body of `errorf`: `ecode = 1` under the mutex
  | other    -- any other operation of the program: does not touch `ecode`
deriving Repr, DecidableEq

/-- The effect of one operation on `ecode`. -/
def ecodeStep : Nat → EcodeOp → Nat
  | _, .errorf => 1
  | e, .other => e

/-- The value of `ecode` after a sequence of operations, starting from
its zero value (Go zero-initialises the `int` field). -/
def ecodeAfter (ops : List EcodeOp) : Nat :=
  ops.foldl ecodeStep 0

/-! ### retryUpload (main.go lines 91-103)

```go
func retryUpload(dst, file string, n int) error {
    var err error
    for i := 0; i <= n; i++ {
        if i > 0 {
            t := time.Duration((math.Pow(2, float64(i)) + rand.Float64()) * float64(time.Second))
            sleep(t)
        }
        if err = uploadFile(dst, file); err == nil {
            break
        }
    }
    return err
}
```

`uploadFile`'s outcome on the k-th iteration and the random jitter drawn
on the k-th iteration are parameters (`attemptErr k` is the error of the
invocation with loop index `k`; `jitter k` the value of
`rand.Float64()` there).  Durations are modelled in exact seconds as
rationals.  The trace records the number of `uploadFile` invocations,
the sleep durations in order, and the returned error. -/

structure RetryTrace where
  calls : Nat
  sleeps : List ℚ
  err : Option String
deriving Repr, DecidableEq

/-- The loop of `retryUpload`, unrolled from iteration `i` with
`budget` further iterations allowed after this one (so the call
`retryUpload dst file n` runs `retryFrom attemptErr jitter 0 n`). -/
def retryFrom (attemptErr : Nat → Option String) (jitter : Nat → ℚ) :
    Nat → Nat → RetryTrace
  | i, 0 =>
    let s : List ℚ := if 0 < i then [2 ^ i + jitter i] else []
    match attemptErr i with
    | none => ⟨1, s, none⟩
    | some e => ⟨1, s, some e⟩
  | i, b + 1 =>
    let s : List ℚ := if 0 < i then [2 ^ i + jitter i] else []
    match attemptErr i with
    | none => ⟨1, s, none⟩
    | some _ =>
      let t := retryFrom attemptErr jitter (i + 1) b
      ⟨t.calls + 1, s ++ t.sleeps, t.err⟩

/-- `retryUpload` with retry budget `n`: the loop `for i := 0; i <= n; i++`. -/
def retryUpload (attemptErr : Nat → Option String) (jitter : Nat → ℚ)
    (n : Nat) : RetryTrace :=
  retryFrom attemptErr jitter 0 n

/-! ### processFiles (part_002 lines 160-176)

```go
const chunkSize = 500
for i := 0; i < len(files); i += chunkSize {
    end := i + chunkSize
    if end > len(files) { end = len(files) }
    chunk := files[i:end]
    if err := p.uploadChunk(chunk); err != nil { return err }
}
return nil
```

The slice `files[i:end]` with `end = min(i+500, len(files))` is the
prefix of length (at most) 500 of the suffix of `files` starting at `i`;
advancing `i` by `chunkSize` is dropping that prefix.  We therefore
embed the loop as a recursion on the remaining suffix. -/

/-- The chunks, in processing order, that the `processFiles` loop slices
out of `files`. -/
def chunksOf500 : List String → List (List String)
  | [] => []
  | a :: rest => ((a :: rest).take 500) :: chunksOf500 ((a :: rest).drop 500)
termination_by l => l.length
decreasing_by
  simp only [List.length_drop, List.length_cons]
  omega

/-- The sequential chunk loop of `processFiles`, parameterised by the
outcome of `uploadChunk` on each chunk; returns the chunks handed to
`uploadChunk`, in order, and the first error (the loop returns early on
a non-nil error). -/
def processChunkLoop (u : List String → Option String) :
    List (List String) → List (List String) × Option String
  | [] => ([], none)
  | c :: rest =>
    match u c with
    | some e => ([c], some e)
    | none =>
      let t := processChunkLoop u rest
      (c :: t.1, t.2)

/-- `processFiles`: chunk the file list and run the sequential loop. -/
def processFiles (u : List String → Option String) (files : List String) :
    List (List String) × Option String :=
  processChunkLoop u (chunksOf500 files)

/-! ### Download mode (plugin.go downloadObject lines 315-349 and downloadObjects lines 352-373)

`downloadObject` runs four effectful steps in order -- `os.MkdirAll`,
`os.Create`, `Object.NewReader`, `io.Copy` -- returning (a wrapped copy
of) the first error.  `downloadObjects` iterates the listing: a listing
error returns immediately, and a `downloadObject` error returns
immediately; otherwise iteration continues until `iterator.Done`. -/

/-- `downloadObject`, with the outcome of each of its four effectful
steps as a parameter (`none` = step succeeded). -/
def downloadObject (mkdirErr createErr openErr copyErr : Option String) :
    Option String :=
  match mkdirErr with
  | some e => some ("error creating directories: " ++ e)
  | none =>
    match createErr with
    | some e => some ("error creating destination file: " ++ e)
    | none =>
      match openErr with
      | some e => some ("error opening GCS object for reading: " ++ e)
      | none =>
        match copyErr with
        | some e => some ("error copying GCS object contents to local file: " ++ e)
        | none => none

/-- The iteration of `downloadObjects` over the object listing.  The
listing is the sequence produced by `it.Next()` before `iterator.Done`:
each element is either an object name or a listing error.  `dl o` is the
outcome of `p.downloadObject` on object `o`.  Returns the objects for
which a download was attempted, in order, and the error that aborted the
loop (if any). -/
def downloadObjectsRun (dl : String → Option String) :
    List (Except String String) → List String × Option String
  | [] => ([], none)
  | .error e :: _ => ([], some ("error while iterating through GCS objects: " ++ e))
  | .ok o :: rest =>
    match dl o with
    | some e => ([o], some e)
    | none =>
      let t := downloadObjectsRun dl rest
      (o :: t.1, t.2)

/-! ### ACL parsing inside uploadFile (plugin.go lines 189-200, main.go lines 121-130)

```go
for _, s := range p.Config.ACL {
    a := strings.SplitN(s, ":", 2)
    if len(a) != 2 {
        return fmt.Errorf("%s: invalid ACL %q", name, s)
    }
    w.ACL = append(w.ACL, storage.ACLRule{Entity: ..., Role: ...})
}
```
-/

/-- `strings.SplitN(s, ":", 2)` splits at the first colon; with no colon
the result has a single element.  This helper finds the first colon. -/
def splitFirstColon : List Char → Option (List Char × List Char)
  | [] => none
  | c :: cs =>
    if c = ':' then some ([], cs)
    else
      match splitFirstColon cs with
      | none => none
      | some (a, b) => some (c :: a, b)

/-- `strings.SplitN(s, ":", 2)`. -/
def splitN2Colon (s : String) : List String :=
  match splitFirstColon s.data with
  | none => [s]
  | some (a, b) => [String.mk a, String.mk b]

/-- The ACL loop of `uploadFile`: builds the (entity, role) rules in
order, returning the `invalid ACL` error at the first entry that does
not split into exactly two fields. -/
def buildACL (name : String) : List String → Except String (List (String × String))
  | [] => .ok []
  | s :: rest =>
    match splitN2Colon s with
    | [a, b] =>
      match buildACL name rest with
      | .error e => .error e
      | .ok rs => .ok ((a, b) :: rs)
    | _ => .error (name ++ ": invalid ACL \"" ++ s ++ "\"")

/-! ### Pre-flight validation in run (part_010 lines 109-115)

```go
if plugin.Config.Source == "" { return errors.New("Missing source") }
if plugin.Config.Target == "" { return errors.New("Missing target") }
```
This is the only validation performed before `plugin.Exec` is invoked
(the metadata JSON parse above it concerns only the metadata flag). -/

structure RunConfig where
  source : String
  target : String
  acl : List String
deriving Repr, DecidableEq

/-- The configuration checks of `run` before any client or transfer work. -/
def runValidate (c : RunConfig) : Except String Unit :=
  if c.source = "" then .error "Missing source"
  else if c.target = "" then .error "Missing target"
  else .ok ()

/-! ### File extensions and the gzip match (plugin.go matchGzip lines 255-266)

`filepath.Ext` scans backwards from the end of the path and returns the
suffix starting at the last dot of the last path element ("" if the last
element has no dot). -/

/-- Backwards scan of `filepath.Ext`: the input is the reversed character
list of the path, `acc` the characters after the current position in
their original order. -/
def extRev : List Char → List Char → Option (List Char)
  | [], _ => none
  | c :: rest, acc =>
    if c = '/' then none
    else if c = '.' then some (c :: acc)
    else extRev rest (c :: acc)

/-- `filepath.Ext`. -/
def filepathExt (s : String) : String :=
  match extRev s.data.reverse [] with
  | none => ""
  | some l => String.mk l

/-- `sort.Search` (Go's standard binary search):

```go
i, j := 0, n
for i < j {
    h := int(uint(i+j) >> 1)
    if !f(h) { i = h + 1 } else { j = h }
}
return i
```

The loop shrinks `j - i` on every iteration, so `n` iterations always
suffice; the first argument is that explicit bound on the remaining
iterations, making the recursion structural. -/
def goSearchAux (f : Nat → Bool) : Nat → Nat → Nat → Nat
  | 0, i, _ => i
  | fuel + 1, i, j =>
    if i < j then
      let h := (i + j) / 2
      if f h then goSearchAux f fuel i h
      else goSearchAux f fuel (h + 1) j
    else i

/-- `sort.Search(n, f)`. -/
def goSearch (n : Nat) (f : Nat → Bool) : Nat :=
  goSearchAux f n 0 n

/-- Go's `<=` on strings: lexicographic comparison of the UTF-8 bytes,
which coincides with lexicographic comparison of the code points. -/
def charListLe : List Char → List Char → Bool
  | [], _ => true
  | _ :: _, [] => false
  | a :: as, b :: bs => if a = b then charListLe as bs else decide (a < b)

/-- Go's `x <= y` for strings. -/
def stringLe (x y : String) : Bool :=
  charListLe x.data y.data

/-- `stringLe` as a relation (for sortedness statements). -/
def stringLeRel (x y : String) : Prop :=
  stringLe x y = true

instance : DecidableRel stringLeRel := fun x y => by
  unfold stringLeRel; infer_instance

/-- `sort.SearchStrings(a, x)` = `sort.Search(len(a), func(i) { return a[i] >= x })`. -/
def searchStrings (a : List String) (x : String) : Nat :=
  goSearch a.length (fun i => stringLe x (a.getD i ""))

/-- `sort.Strings` (called by `Exec` on `p.Config.Gzip` before any
upload).  Go uses an in-place introsort; its observable result is the
sorted permutation of the input, which we model with insertion sort. -/
def sortStrings (l : List String) : List String :=
  l.insertionSort stringLeRel

/-- `matchGzip` (plugin.go lines 255-266):

```go
ext := filepath.Ext(file)
if ext == "" { return false }
ext = ext[1:]
i := sort.SearchStrings(p.Config.Gzip, ext)
return i < len(p.Config.Gzip) && p.Config.Gzip[i] == ext
```
-/
def matchGzip (gzipList : List String) (file : String) : Bool :=
  let ext := filepathExt file
  if ext = "" then false
  else
    let e := ext.drop 1
    let i := searchStrings gzipList e
    decide (i < gzipList.length) && decide (gzipList.getD i "" = e)

/-! ### uploadFile (plugin.go lines 170-217, identically main.go lines 107-142)

The effectful steps -- `os.Open` inside `gzipper`, `filepath.Rel`, the
MIME table lookup, and the network write (`io.Copy` + `w.Close`) -- are
parameters; the branching, the attribute assignment and the choice
between the raw and the gzip-compressed stream are translated from the
source.  `path.Join`'s `Clean` normalization of the object key is not
modelled (no claim depends on it); joining is. -/

/-- The stream handed to the object writer: the file bytes verbatim, or
the same bytes gzip-compressed on the fly by `gzipper`'s pipe. -/
inductive Body
  | raw (bytes : List Nat)
  | gzipped (bytes : List Nat)
deriving Repr, DecidableEq

structure ObjectAttrs where
  name : String
  cacheControl : String
  metadata : List (String × String)
  aclRules : List (String × String)
  contentType : String
  contentEncoding : String
  body : Body
deriving Repr, DecidableEq

/-- The outcome of one `uploadFile` call: whether the local source file
was opened (i.e. the transfer attempt for this file began), and the
written object attributes or the returned error. -/
structure UploadOutcome where
  openedSource : Bool
  result : Except String ObjectAttrs
deriving Repr

/-- `path.Join` of the two non-empty fragments (Go returns the other
fragment when one is empty; the additional `Clean` pass is not
modelled). -/
def pathJoin (a b : String) : String :=
  if a = "" then b
  else if b = "" then a
  else a ++ "/" ++ b

/-- `uploadFile dst file` for `dst = path.Join(target, rel)`:
open/compress via `gzipper` (open outcome `openErr`, compression choice
by `matchGzip`), compute `rel` (outcome `relResult`), build the writer
attributes including the ACL loop, then copy and close (network outcome
`writeErr`). -/
def uploadFile (gzipList : List String) (acl : List String)
    (cacheControl : String) (metadata : List (String × String))
    (mimeOf : String → String) (target : String)
    (openErr : Option String) (relResult : Except String String)
    (writeErr : Option String) (bytes : List Nat) (file : String) :
    UploadOutcome :=
  match openErr with
  | some e => ⟨false, .error e⟩
  | none =>
    let gz := matchGzip gzipList file
    match relResult with
    | .error e => ⟨true, .error e⟩
    | .ok rel =>
      let name := pathJoin target rel
      match buildACL name acl with
      | .error e => ⟨true, .error e⟩
      | .ok rules =>
        let ct0 := mimeOf (filepathExt file)
        let ct := if ct0 = "" then "application/octet-stream" else ct0
        match writeErr with
        | some e => ⟨true, .error e⟩
        | none =>
          ⟨true, .ok { name := name, cacheControl := cacheControl,
                       metadata := metadata, aclRules := rules,
                       contentType := ct,
                       contentEncoding := if gz then "gzip" else "",
                       body := if gz then .gzipped bytes else .raw bytes }⟩

/-! ### Zero-match glob handling (part_002 matches lines 423-461 and Exec lines 140-147)

The glob branch of `matches` (reached when the include pattern contains
glob metacharacters):

```go
matches, err := zglob.Glob(normalizedInclude)
if err != nil { return nil, err }
if len(matches) == 0 { return []string{}, nil }    // not an error
if exclude == "" { return matches, nil }
excludeMatches, err := filepath.Glob(exclude)
if err != nil { return nil, err }
... filter out excluded ...
```

and the empty-result check in `Exec`:

```go
if len(src) == 0 {
    p.printf("No files matched the pattern: %s", p.Config.Source)
    return nil // Not an error, just nothing to do
}
```

The library calls `zglob.Glob` and `filepath.Glob` are abstracted as
their outcomes. -/

/-- The glob branch of `matches`. -/
def matchesGlobBranch (globResult : Except String (List String))
    (excludeGlobResult : Except String (List String)) (exclude : String) :
    Except String (List String) :=
  match globResult with
  | .error e => .error e
  | .ok ms =>
    if ms.length = 0 then .ok []
    else if exclude = "" then .ok ms
    else
      match excludeGlobResult with
      | .error e => .error e
      | .ok exs => .ok (ms.filter (fun f => !(exs.contains f)))

/-- What `Exec` does with the resolved file list. -/
inductive ExecUploadPhase
  | noFilesNoOp                       -- log "No files matched"; return nil
  | processChunks (files : List String)
deriving Repr, DecidableEq

/-- The branch on `len(src)` in `Exec` (part_002 lines 140-156). -/
def execAfterWalk (src : List String) : ExecUploadPhase :=
  if src.length = 0 then .noFilesNoOp else .processChunks src

/-! ### Ignore patterns

`strings.Split(s, ",")`. -/

/-- Splitting a character list at every occurrence of `sep`
(`strings.Split` semantics: the empty string yields one empty field). -/
def splitCharList (sep : Char) : List Char → List (List Char)
  | [] => [[]]
  | c :: cs =>
    let t := splitCharList sep cs
    if c = sep then [] :: t
    else
      match t with
      | [] => [[c]]
      | h :: r => (c :: h) :: r

/-- `strings.Split(s, sep)` for a one-character separator. -/
def splitOnChar (sep : Char) (s : String) : List String :=
  (splitCharList sep s.data).map String.mk

/-- Shell-glob (`fnmatch`-style) matching of a pattern against a path:
`*` matches any run of non-separator characters (it does not cross `/`),
`?` matches one non-separator character, every other pattern character
matches itself.  Every recursive call shrinks the combined length of the
two lists, so that length is an explicit bound on the recursion depth,
making the definition structural. -/
def globMatchFuel : Nat → List Char → List Char → Bool
  | 0, _, _ => false
  | fuel + 1, p, s =>
    match p, s with
    | [], [] => true
    | [], _ :: _ => false
    | '*' :: ps, [] => globMatchFuel fuel ps []
    | '*' :: ps, c :: cs =>
      globMatchFuel fuel ps (c :: cs) ||
        (decide (c ≠ '/') && globMatchFuel fuel ('*' :: ps) cs)
    | '?' :: ps, c :: cs => decide (c ≠ '/') && globMatchFuel fuel ps cs
    | _ :: _, [] => false
    | q :: ps, c :: cs => (q == c) && globMatchFuel fuel ps cs

/-- `fnmatch`-style glob matching (see `globMatchFuel`). -/
def globMatch (p s : List Char) : Bool :=
  globMatchFuel (p.length + s.length + 1) p s

/-- Whitespace trimming of a pattern segment (the spec's "trimmed"). -/
def isSpaceChar (c : Char) : Bool :=
  c == ' ' || c == '\t' || c == '\n' || c == '\r'

/-- Trim leading and trailing whitespace. -/
def trimString (s : String) : String :=
  String.mk (((s.data.dropWhile isSpaceChar).reverse.dropWhile isSpaceChar).reverse)

/-- Modelled from the spec: the path of a resolved file relative to its
recorded base directory ("compute its path relative to its recorded base
directory"; the spec guarantees the base is an ancestor of the path). -/
def relTo (base path : String) : String :=
  if (base.data ++ ['/']).isPrefixOf path.data then
    String.mk (path.data.drop (base.data.length + 1))
  else path

/-- Modelled from the spec: `shouldIgnoreFile` -- the ignore test of the
pattern-resolver lineage, whose implementation is not among the source
files here (only its tests are, in `unnamed/part_009`): "split the
ignore spec on commas into trimmed non-empty patterns; for each resolved
file, compute its path relative to its recorded base directory and test
each ignore pattern against that relative path using shell-glob
`fnmatch`-style matching (`*` does not cross `/`); drop the file if any
pattern matches." -/
def shouldIgnoreFile (ignoreSpec : String) (baseDir filePath : String) : Bool :=
  if ignoreSpec = "" then false
  else
    let pats := ((splitOnChar ',' ignoreSpec).map trimString).filter
      (fun p => decide (p ≠ ""))
    let rel := relTo baseDir filePath
    pats.any (fun pat => globMatch pat.data rel.data)

/-! ## Theorems -/

/-- Helper: the exit code after folding a run is 1 as soon as any
`errorf` occurred, and the initial value otherwise. -/
theorem ecode_foldl (e : Nat) (ops : List EcodeOp) :
    ops.foldl ecodeStep e = if EcodeOp.errorf ∈ ops then 1 else e := by
  induction ops generalizing e with
  | nil => simp
  | cons op rest ih =>
    cases op with
    | errorf => simp [List.foldl_cons, ecodeStep, ih]
    | other => simp [List.foldl_cons, ecodeStep, ih]

/-- C10: the exit-code accumulator is monotone: it starts at 0, its value
is always 0 or 1, and once any operation sequence contains a call to
`errorf` (the only statement that writes `ecode`), the final value is 1
no matter what operations follow -- nothing resets it. -/
theorem c10_ecode_monotone :
    ecodeAfter [] = 0 ∧
    (∀ ops : List EcodeOp, ecodeAfter ops = 0 ∨ ecodeAfter ops = 1) ∧
    (∀ pre post : List EcodeOp, EcodeOp.errorf ∈ pre →
      ecodeAfter (pre ++ post) = 1) := by
  refine ⟨rfl, ?_, ?_⟩
  · intro ops
    unfold ecodeAfter
    rw [ecode_foldl]
    split <;> simp
  · intro pre post h
    unfold ecodeAfter
    rw [ecode_foldl]
    simp [List.mem_append, h]

/-- Witness for C10 at a concrete operation sequence. -/
theorem c10_ecode_monotone_witness :
    ecodeAfter ([EcodeOp.other, EcodeOp.errorf] ++ [EcodeOp.other, EcodeOp.other]) = 1 :=
  c10_ecode_monotone.2.2 [EcodeOp.other, EcodeOp.errorf]
    [EcodeOp.other, EcodeOp.other] (by decide)

/-- C1 counterexample: with upload results arriving as [A failed, B
succeeded], the collection loop fatals at A (`p.fatalf` is `log.Fatalf`)
and terminates the run: B's success is never collected or reported,
refuting "every file's outcome is still collected and logged ... the run
reports B succeeded and A failed" and "does not stop or abort the
transfers of the remaining files". -/
theorem c1_isolation_counterexample :
    collectResults [⟨"A", some "upload failed"⟩, ⟨"B", none⟩]
        = ([], some ⟨"A", some "upload failed"⟩) ∧
    "B" ∉ (collectResults [⟨"A", some "upload failed"⟩, ⟨"B", none⟩]).1 := by
  exact ⟨rfl, by decide⟩

/-- C1 (amended): the collection loop logs successful outcomes in
arrival order only up to the first failed outcome; at the first failed
outcome it invokes `fatalf` (`log.Fatalf`), which terminates the run
with a failure exit immediately -- outcomes after the first failure are
not collected, so per-file failure is not isolated. -/
theorem c1_collect_aborts_at_first_failure (pre : List UploadResult)
    (bad : UploadResult) (post : List UploadResult)
    (hpre : ∀ r ∈ pre, r.err = none) (hbad : bad.err.isSome) :
    collectResults (pre ++ bad :: post) = (pre.map UploadResult.name, some bad) := by
  induction pre with
  | nil =>
    obtain ⟨e, he⟩ := Option.isSome_iff_exists.mp hbad
    simp [collectResults, he]
  | cons r rest ih =>
    have hr : r.err = none := hpre r (List.mem_cons_self r rest)
    have hrec := ih (fun x hx => hpre x (List.mem_cons_of_mem r hx))
    simp [collectResults, hr, hrec]

/-- Witness for the amended C1 at a concrete arrival order. -/
theorem c1_collect_aborts_witness :
    collectResults [⟨"B0", none⟩, ⟨"A", some "boom"⟩, ⟨"B", none⟩]
        = (["B0"], some ⟨"A", some "boom"⟩) :=
  c1_collect_aborts_at_first_failure [⟨"B0", none⟩] ⟨"A", some "boom"⟩
    [⟨"B", none⟩] (by decide) (by decide)

/-- C2: the worker releases its semaphore slot on the path where
`uploadFile` runs (success or failure), but on the path where
`filepath.Rel` fails it returns after sending its result WITHOUT
executing the release `<-buf`: the admitted task terminates holding its
slot.  The error value is the one from the production failure documented
in the test file (`unnamed/part_009`): source `*.txt`, file
`/harness/op.txt`, for which `filepath.Rel` fails. -/
theorem c2_worker_release_paths :
    (∀ f rel uploadErr, (workerBody f (.ok rel) uploadErr).released = true) ∧
    (workerBody "/harness/op.txt"
        (.error "Rel: cannot make /harness/op.txt relative to *.txt")
        none).released = false :=
  ⟨fun _ _ _ => rfl, rfl⟩

/-- Helper: an ACL list containing an entry with no colon (so
`strings.SplitN(s, ":", 2)` yields one field, not two) makes the ACL
loop of `uploadFile` return an `invalid ACL` error. -/
theorem buildACL_error_of_malformed (name : String) (acl : List String)
    (h : ∃ s ∈ acl, splitFirstColon s.data = none) :
    ∃ e, buildACL name acl = .error e := by
  induction acl with
  | nil => simp at h
  | cons s rest ih =>
    by_cases hh : splitFirstColon s.data = none
    · exact ⟨name ++ ": invalid ACL \"" ++ s ++ "\"",
        by simp [buildACL, splitN2Colon, hh]⟩
    · obtain ⟨t, ht, hmal⟩ := h
      rcases List.mem_cons.mp ht with rfl | htr
      · exact absurd hmal hh
      · obtain ⟨e, he⟩ := ih ⟨t, htr, hmal⟩
        obtain ⟨⟨a, b⟩, hab⟩ : ∃ p, splitFirstColon s.data = some p := by
          cases hcase : splitFirstColon s.data with
          | none => exact absurd hcase hh
          | some p => exact ⟨p, rfl⟩
        exact ⟨e, by simp [buildACL, splitN2Colon, hab, he]⟩

/-- C3 counterexample: with the malformed ACL entry "allUsers" (no
colon), the pre-flight validation of `run` still succeeds -- the
malformed entry is NOT detected before transfers begin -- and the
per-file upload attempt does begin (the source file is opened) before
`uploadFile` reports the `invalid ACL` error. -/
theorem c3_acl_not_preflight_counterexample :
    runValidate ⟨"dist", "bucket/dir", ["allUsers"]⟩ = .ok () ∧
    (uploadFile [] ["allUsers"] "" [] (fun _ => "") "dir" none
        (.ok "file.txt") none [1] "file.txt").openedSource = true ∧
    (uploadFile [] ["allUsers"] "" [] (fun _ => "") "dir" none
        (.ok "file.txt") none [1] "file.txt").result
      = .error "dir/file.txt: invalid ACL \"allUsers\"" :=
  ⟨rfl, rfl, rfl⟩

/-- C3 (amended): malformed ACL entries are detected per file inside
`uploadFile`, not pre-flight: the only validation before `Exec` checks
that source and target are non-empty, so a configuration with a
malformed ACL entry passes it; each file's upload attempt then opens the
source stream and fails with an `invalid ACL` error while building the
writer's ACL rules. -/
theorem c3_acl_checked_per_file (src tgt : String) (hsrc : src ≠ "")
    (htgt : tgt ≠ "") (acl : List String)
    (hmal : ∃ s ∈ acl, splitFirstColon s.data = none)
    (gzipList : List String) (cc : String) (md : List (String × String))
    (mimeOf : String → String) (target rel : String) (bytes : List Nat)
    (file : String) :
    runValidate ⟨src, tgt, acl⟩ = .ok () ∧
    (uploadFile gzipList acl cc md mimeOf target none (.ok rel) none
        bytes file).openedSource = true ∧
    ∃ e, (uploadFile gzipList acl cc md mimeOf target none (.ok rel) none
        bytes file).result = .error e := by
  obtain ⟨e, he⟩ := buildACL_error_of_malformed (pathJoin target rel) acl hmal
  refine ⟨?_, ?_, ⟨e, ?_⟩⟩
  · simp [runValidate, hsrc, htgt]
  · simp [uploadFile, he]
  · simp [uploadFile, he]

/-- Witness for the amended C3: concrete configuration with a valid and
a malformed ACL entry. -/
theorem c3_acl_checked_per_file_witness :
    runValidate ⟨"dist", "bucket/dir", ["allUsers:READER", "bad"]⟩ = .ok () ∧
    (uploadFile ["js"] ["allUsers:READER", "bad"] "" [] (fun _ => "") "dir"
        none (.ok "file.txt") none [1] "file.txt").openedSource = true ∧
    ∃ e, (uploadFile ["js"] ["allUsers:READER", "bad"] "" [] (fun _ => "")
        "dir" none (.ok "file.txt") none [1] "file.txt").result = .error e :=
  c3_acl_checked_per_file "dist" "bucket/dir" (by decide) (by decide)
    ["allUsers:READER", "bad"] ⟨"bad", by decide, rfl⟩ ["js"] "" []
    (fun _ => "") "dir" "file.txt" [1] "file.txt"

/-- C5 counterexample: a glob expansion that matches zero files
(`zglob.Glob` returns an empty slice and no error) makes `matches`
return an empty list successfully -- not a "pattern matched no files"
error -- and `Exec` treats the empty resolved set as a successful no-op
(it logs "No files matched the pattern" and returns nil). -/
theorem c5_zero_match_counterexample :
    matchesGlobBranch (.ok []) (.ok []) "" = .ok [] ∧
    execAfterWalk [] = .noFilesNoOp :=
  ⟨rfl, rfl⟩

/-- C5 (amended): when the glob expansion of the source pattern matches
zero files, resolution succeeds with an empty file list (the empty
expansion is explicitly not an error in `matches`), and `Exec` then
returns success without attempting any transfer, logging the no-match:
the empty expansion is tolerated as a no-op rather than failing. -/
theorem c5_zero_match_is_noop (exclude : String)
    (excludeGlobResult : Except String (List String)) :
    matchesGlobBranch (.ok []) excludeGlobResult exclude = .ok [] ∧
    execAfterWalk [] = .noFilesNoOp :=
  ⟨rfl, rfl⟩

/-- Helper: the chunks of a list concatenate back to the list. -/
theorem chunksOf500_join : ∀ l : List String, (chunksOf500 l).flatten = l := by
  intro l
  induction l using chunksOf500.induct with
  | case1 => simp [chunksOf500]
  | case2 a rest ih =>
    rw [chunksOf500]
    simp only [List.flatten_cons, ih, List.take_append_drop]

/-- Helper: every chunk is non-empty and holds at most 500 files. -/
theorem chunksOf500_length_le :
    ∀ l : List String, ∀ c ∈ chunksOf500 l, 0 < c.length ∧ c.length ≤ 500 := by
  intro l
  induction l using chunksOf500.induct with
  | case1 => intro c hc; simp [chunksOf500] at hc
  | case2 a rest ih =>
    intro c hc
    rw [chunksOf500] at hc
    rcases List.mem_cons.mp hc with rfl | hmem
    · constructor
      · simp
      · exact List.length_take_le 500 (a :: rest)
    · exact ih c hmem

/-- Helper: `chunksOf500` yields the empty chunk list only on the empty
file list. -/
theorem chunksOf500_eq_nil_iff (l : List String) :
    chunksOf500 l = [] ↔ l = [] := by
  cases l with
  | nil => simp [chunksOf500]
  | cons a rest => simp [chunksOf500]

/-- Helper: every chunk except possibly the last holds exactly 500 files. -/
theorem chunksOf500_dropLast :
    ∀ l : List String, ∀ c ∈ (chunksOf500 l).dropLast, c.length = 500 := by
  intro l
  induction l using chunksOf500.induct with
  | case1 => intro c hc; simp [chunksOf500] at hc
  | case2 a rest ih =>
    intro c hc
    rw [chunksOf500] at hc
    rcases hdrop : chunksOf500 ((a :: rest).drop 500) with _ | ⟨d, ds⟩
    · rw [hdrop] at hc
      simp at hc
    · rw [hdrop] at hc
      rw [List.dropLast_cons₂] at hc
      rcases List.mem_cons.mp hc with rfl | hmem
      · have hne : (a :: rest).drop 500 ≠ [] := by
          intro hnil
          rw [hnil] at hdrop
          simp [chunksOf500] at hdrop
        have hlen : 500 ≤ rest.length := by
          by_contra hle
          refine hne (List.drop_eq_nil_of_le ?_)
          simp only [List.length_cons]
          omega
        simp [List.length_take, List.length_cons]
        omega
      · have := ih c
        rw [hdrop] at this
        exact this hmem

/-- C8: `processFiles` partitions the resolved file list into
consecutive chunks of at most 500 files each (every chunk except
possibly the last holds exactly 500, none is empty), whose concatenation
in processing order is exactly the input list (so every file is handed
to `uploadChunk` exactly once), and the sequential loop hands exactly
those chunks, in order, to `uploadChunk` (which in the source always
returns nil, so no chunk is skipped). -/
theorem c8_chunking (files : List String) :
    (chunksOf500 files).flatten = files ∧
    (∀ c ∈ chunksOf500 files, 0 < c.length ∧ c.length ≤ 500) ∧
    (∀ c ∈ (chunksOf500 files).dropLast, c.length = 500) ∧
    (∀ u : List String → Option String, (∀ c, u c = none) →
      processFiles u files = (chunksOf500 files, none)) := by
  refine ⟨chunksOf500_join files, chunksOf500_length_le files,
    chunksOf500_dropLast files, ?_⟩
  intro u hu
  unfold processFiles
  generalize chunksOf500 files = cs
  induction cs with
  | nil => rfl
  | cons c rest ih => simp [processChunkLoop, hu, ih]

/-- Witness for C8 at a concrete file list. -/
theorem c8_chunking_witness :
    processFiles (fun _ => none) ["a", "b", "c"]
        = (chunksOf500 ["a", "b", "c"], none) ∧
    (chunksOf500 ["a", "b", "c"]).flatten = ["a", "b", "c"] :=
  ⟨(c8_chunking ["a", "b", "c"]).2.2.2 (fun _ => none) (fun _ => rfl),
   (c8_chunking ["a", "b", "c"]).1⟩

/-- Helper: a failing step ends the download loop; the outcome equals
the run on the listing truncated at the failing step. -/
theorem downloadRun_stops (dl : String → Option String)
    (bad : Except String String) (post : List (Except String String))
    (hbad : (∃ e, bad = Except.error e) ∨
      ∃ o e, bad = Except.ok o ∧ dl o = some e) :
    ∀ pre : List (Except String String),
      (∀ x ∈ pre, ∃ o, x = Except.ok o ∧ dl o = none) →
      downloadObjectsRun dl (pre ++ bad :: post)
        = downloadObjectsRun dl (pre ++ [bad]) ∧
      (downloadObjectsRun dl (pre ++ [bad])).2.isSome := by
  intro pre
  induction pre with
  | nil =>
    intro _
    rcases hbad with ⟨e, rfl⟩ | ⟨o, e, rfl, ho⟩
    · simp [downloadObjectsRun]
    · simp [downloadObjectsRun, ho]
  | cons x rest ih =>
    intro hpre
    obtain ⟨o, hx, ho⟩ := hpre x (List.mem_cons_self x rest)
    subst hx
    have hrec := ih (fun y hy => hpre y (List.mem_cons_of_mem _ hy))
    simp [downloadObjectsRun, ho, hrec.1, hrec.2]

/-- C9: in download mode the first error aborts everything after it:
if the objects listed before position k all download successfully and
the k-th step fails (either the listing iteration itself errors, or the
object's download errors), then the run's outcome is the same as if the
listing ended at the failing step -- the objects listed after it are
never attempted -- and the returned outcome is that error.  Moreover an
error in any stage of `downloadObject` (directory creation, local file
creation, remote open, copy) makes that download fail. -/
theorem c9_download_first_error_aborts (dl : String → Option String)
    (pre post : List (Except String String)) (bad : Except String String)
    (hpre : ∀ x ∈ pre, ∃ o, x = Except.ok o ∧ dl o = none)
    (hbad : (∃ e, bad = Except.error e) ∨
      ∃ o e, bad = Except.ok o ∧ dl o = some e) :
    downloadObjectsRun dl (pre ++ bad :: post)
        = downloadObjectsRun dl (pre ++ [bad]) ∧
    (downloadObjectsRun dl (pre ++ bad :: post)).2.isSome ∧
    (∀ m c o cp : Option String,
      (m.isSome ∨ c.isSome ∨ o.isSome ∨ cp.isSome) →
      (downloadObject m c o cp).isSome) := by
  have main := downloadRun_stops dl bad post hbad pre hpre
  refine ⟨main.1, main.1 ▸ main.2, ?_⟩
  intro m c o cp h
  cases m <;> cases c <;> cases o <;> cases cp <;>
    simp [downloadObject] at h ⊢

/-- Witness for C9 at a concrete listing. -/
theorem c9_download_abort_witness :
    downloadObjectsRun (fun o => if o = "b" then some "boom" else none)
        ([Except.ok "a"] ++ Except.ok "b" :: [Except.ok "c"])
      = downloadObjectsRun (fun o => if o = "b" then some "boom" else none)
        ([Except.ok "a"] ++ [Except.ok "b"]) ∧
    (downloadObjectsRun (fun o => if o = "b" then some "boom" else none)
        ([Except.ok "a"] ++ Except.ok "b" :: [Except.ok "c"])).2.isSome ∧
    (∀ m c o cp : Option String,
      (m.isSome ∨ c.isSome ∨ o.isSome ∨ cp.isSome) →
      (downloadObject m c o cp).isSome) :=
  c9_download_first_error_aborts (fun o => if o = "b" then some "boom" else none)
    [Except.ok "a"] [Except.ok "c"] (Except.ok "b")
    (by
      intro x hx
      rw [List.mem_singleton] at hx
      subst hx
      exact ⟨"a", rfl, rfl⟩)
    (Or.inr ⟨"b", "boom", rfl, rfl⟩)

/-- Helper: the retry loop performs at most `budget + 1` `uploadFile`
invocations. -/
theorem retryFrom_calls_le (attemptErr : Nat → Option String)
    (jitter : Nat → ℚ) :
    ∀ b i, (retryFrom attemptErr jitter i b).calls ≤ b + 1 := by
  intro b
  induction b with
  | zero =>
    intro i
    unfold retryFrom
    cases attemptErr i <;> simp
  | succ b ih =>
    intro i
    unfold retryFrom
    cases attemptErr i with
    | none => simp
    | some e =>
      simp only []
      have := ih (i + 1)
      omega

/-- Helper: if all attempts up to (but excluding) `k` fail and attempt
`k` succeeds, the retry loop started at `i` performs exactly `k - i + 1`
invocations, sleeps `2^t + jitter t` seconds before each iteration
`t ≥ max 1 i` up to `k`, and returns nil. -/
theorem retryFrom_succeeds (attemptErr : Nat → Option String)
    (jitter : Nat → ℚ) :
    ∀ b i k, i ≤ k → k ≤ i + b →
    (∀ j, i ≤ j → j < k → (attemptErr j).isSome) → attemptErr k = none →
    retryFrom attemptErr jitter i b =
      ⟨k - i + 1,
       (List.range' (max 1 i) (k + 1 - max 1 i)).map (fun t => 2 ^ t + jitter t),
       none⟩ := by
  intro b
  induction b with
  | zero =>
    intro i k hik hkb hfail hsucc
    have hki : k = i := by omega
    subst hki
    unfold retryFrom
    rw [hsucc]
    rcases Nat.eq_zero_or_pos k with rfl | hk
    · simp
    · have hmax : max 1 k = k := by omega
      simp [hmax, hk, List.range'_one]
  | succ b ih =>
    intro i k hik hkb hfail hsucc
    rcases eq_or_lt_of_le hik with rfl | hlt
    · unfold retryFrom
      rw [hsucc]
      rcases Nat.eq_zero_or_pos i with rfl | hi
      · simp
      · have hmax : max 1 i = i := by omega
        simp [hmax, hi, List.range'_one]
    · have hi_some : (attemptErr i).isSome := hfail i le_rfl hlt
      obtain ⟨e, he⟩ := Option.isSome_iff_exists.mp hi_some
      have hstep : retryFrom attemptErr jitter i (b + 1) =
          ⟨(retryFrom attemptErr jitter (i + 1) b).calls + 1,
            (if 0 < i then [2 ^ i + jitter i] else []) ++
              (retryFrom attemptErr jitter (i + 1) b).sleeps,
            (retryFrom attemptErr jitter (i + 1) b).err⟩ := by
        conv_lhs => rw [retryFrom]
        rw [he]
      have hrec := ih (i + 1) k hlt (by omega)
        (fun j hj1 hj2 => hfail j (by omega) hj2) hsucc
      rw [hstep, hrec]
      simp only [RetryTrace.mk.injEq]
      refine ⟨by omega, ?_, trivial⟩
      rcases Nat.eq_zero_or_pos i with rfl | hi
      · simp
      · have hmax : max 1 i = i := by omega
        have hmax1 : max 1 (i + 1) = i + 1 := by omega
        have hcount : k + 1 - i = (k + 1 - (i + 1)) + 1 := by omega
        simp only [hmax, hmax1, hi, if_pos]
        rw [hcount, List.range'_succ, List.map_cons]
        simp

/-- Helper: if every attempt in the budget fails, the retry loop started
at `i` performs exactly `budget + 1` invocations, sleeps before every
iteration `t ≥ max 1 i`, and returns the last error. -/
theorem retryFrom_all_fail (attemptErr : Nat → Option String)
    (jitter : Nat → ℚ) :
    ∀ b i, (∀ j, i ≤ j → j ≤ i + b → (attemptErr j).isSome) →
    (retryFrom attemptErr jitter i b).calls = b + 1 ∧
    (retryFrom attemptErr jitter i b).err.isSome ∧
    (retryFrom attemptErr jitter i b).sleeps =
      (List.range' (max 1 i) (i + b + 1 - max 1 i)).map
        (fun t => 2 ^ t + jitter t) := by
  intro b
  induction b with
  | zero =>
    intro i hfail
    obtain ⟨e, he⟩ := Option.isSome_iff_exists.mp (hfail i le_rfl (by omega))
    unfold retryFrom
    rw [he]
    rcases Nat.eq_zero_or_pos i with rfl | hi
    · simp
    · have hmax : max 1 i = i := by omega
      simp [hmax, hi, List.range'_one]
  | succ b ih =>
    intro i hfail
    obtain ⟨e, he⟩ := Option.isSome_iff_exists.mp (hfail i le_rfl (by omega))
    unfold retryFrom
    rw [he]
    have hrec := ih (i + 1) (fun j hj1 hj2 => hfail j (by omega) (by omega))
    refine ⟨by simp [hrec.1], by simp [hrec.2.1], ?_⟩
    simp only [hrec.2.2]
    rcases Nat.eq_zero_or_pos i with rfl | hi
    · simp [Nat.add_comm]
    · have hmax : max 1 i = i := by omega
      have hmax1 : max 1 (i + 1) = i + 1 := by omega
      have hcount : i + (b + 1) + 1 - i = ((i + 1) + b + 1 - (i + 1)) + 1 := by
        omega
      have harg : i + 1 + b + 1 - max 1 (i + 1) = i + 1 + b + 1 - (i + 1) := by
        omega
      simp only [hmax, hmax1, hi, if_pos, harg]
      rw [hcount, List.range'_succ, List.map_cons]
      simp

/-- C4: `retryUpload(dst, file, n)` invokes `uploadFile` at most `n + 1`
times; it returns nil as soon as one invocation succeeds, performing
exactly `k + 1` invocations when the first success is the `k`-th (no
attempts after the success); with `n = 5` (as called from `run`) a
permanently failing file is attempted exactly 6 times; and before the
`i`-th re-attempt (`i ≥ 1`) it sleeps exactly `2^i + r_i` seconds, where
`r_i` is the value drawn from `rand.Float64()` (whose range is `[0,1)`). -/
theorem c4_retry_upload (attemptErr : Nat → Option String)
    (jitter : Nat → ℚ) :
    (∀ n, (retryUpload attemptErr jitter n).calls ≤ n + 1) ∧
    (∀ n k, k ≤ n → (∀ j, j < k → (attemptErr j).isSome) →
      attemptErr k = none →
      retryUpload attemptErr jitter n =
        ⟨k + 1, (List.range' 1 k).map (fun t => 2 ^ t + jitter t), none⟩) ∧
    ((∀ i, i ≤ 5 → (attemptErr i).isSome) →
      (retryUpload attemptErr jitter 5).calls = 6 ∧
      (retryUpload attemptErr jitter 5).err.isSome ∧
      (retryUpload attemptErr jitter 5).sleeps =
        (List.range' 1 5).map (fun t => 2 ^ t + jitter t)) := by
  refine ⟨?_, ?_, ?_⟩
  · intro n
    exact retryFrom_calls_le attemptErr jitter n 0
  · intro n k hk hfail hsucc
    have := retryFrom_succeeds attemptErr jitter n 0 k (by omega) (by omega)
      (fun j _ hj2 => hfail j hj2) hsucc
    simpa using this
  · intro hfail
    have := retryFrom_all_fail attemptErr jitter 5 0
      (fun j _ hj2 => hfail j (by omega))
    simpa using this

/-- Witness for C4: first two attempts fail, the third succeeds --
exactly 3 invocations, sleeps before re-attempts 1 and 2 only. -/
theorem c4_retry_upload_witness :
    retryUpload (fun k => if k < 2 then some "boom" else none)
        (fun _ => (1 : ℚ) / 2) 5
      = ⟨2 + 1, (List.range' 1 2).map (fun t => 2 ^ t + (1 : ℚ) / 2), none⟩ :=
  (c4_retry_upload (fun k => if k < 2 then some "boom" else none)
      (fun _ => (1 : ℚ) / 2)).2.1 5 2 (by omega)
    (fun j hj => by simp [hj]) (by simp)

/-- Helper: `charListLe` is reflexive. -/
theorem charListLe_refl : ∀ l : List Char, charListLe l l = true := by
  intro l
  induction l with
  | nil => rfl
  | cons a as ih => simp [charListLe, ih]

/-- Helper: `charListLe` is total. -/
theorem charListLe_total :
    ∀ a b : List Char, charListLe a b = true ∨ charListLe b a = true := by
  intro a
  induction a with
  | nil => intro b; left; rfl
  | cons x xs ih =>
    intro b
    cases b with
    | nil => right; rfl
    | cons y ys =>
      by_cases hxy : x = y
      · subst hxy
        rcases ih ys with h | h
        · left; simp [charListLe, h]
        · right; simp [charListLe, h]
      · rcases lt_or_gt_of_ne hxy with h | h
        · left; simp [charListLe, hxy, h]
        · right; simp [charListLe, Ne.symm hxy, h]

/-- Helper: `charListLe` is transitive. -/
theorem charListLe_trans :
    ∀ a b c : List Char, charListLe a b = true → charListLe b c = true →
      charListLe a c = true := by
  intro a
  induction a with
  | nil => intro b c _ _; rfl
  | cons x xs ih =>
    intro b c hab hbc
    cases b with
    | nil => simp [charListLe] at hab
    | cons y ys =>
      cases c with
      | nil => simp [charListLe] at hbc
      | cons z zs =>
        by_cases hxy : x = y
        · subst hxy
          by_cases hyz : x = z
          · subst hyz
            simp only [charListLe, if_pos rfl] at hab hbc ⊢
            exact ih ys zs hab hbc
          · simp only [charListLe, if_neg hyz] at hbc ⊢
            exact hbc
        · by_cases hyz : y = z
          · subst hyz
            simp only [charListLe, if_neg hxy] at hab ⊢
            exact hab
          · simp only [charListLe, if_neg hxy, if_neg hyz,
              decide_eq_true_eq] at hab hbc ⊢
            by_cases hxz : x = z
            · subst hxz
              exact absurd (lt_trans hab hbc) (lt_irrefl x)
            · simp only [if_neg hxz, decide_eq_true_eq]
              exact lt_trans hab hbc

/-- Helper: `charListLe` is antisymmetric. -/
theorem charListLe_antisymm :
    ∀ a b : List Char, charListLe a b = true → charListLe b a = true →
      a = b := by
  intro a
  induction a with
  | nil =>
    intro b hab hba
    cases b with
    | nil => rfl
    | cons y ys => simp [charListLe] at hba
  | cons x xs ih =>
    intro b hab hba
    cases b with
    | nil => simp [charListLe] at hab
    | cons y ys =>
      by_cases hxy : x = y
      · subst hxy
        simp only [charListLe, if_pos rfl] at hab hba
        rw [ih ys hab hba]
      · have hyx : y ≠ x := Ne.symm hxy
        simp only [charListLe, if_neg hxy, if_neg hyx,
          decide_eq_true_eq] at hab hba
        exact absurd (lt_trans hab hba) (lt_irrefl x)

instance : IsTotal String stringLeRel :=
  ⟨fun a b => charListLe_total a.data b.data⟩

instance : IsTrans String stringLeRel :=
  ⟨fun a b c => charListLe_trans a.data b.data c.data⟩

/-- Helper: `stringLe` is antisymmetric. -/
theorem stringLe_antisymm (a b : String) (hab : stringLe a b = true)
    (hba : stringLe b a = true) : a = b := by
  have h := charListLe_antisymm a.data b.data hab hba
  cases a
  cases b
  rw [show ({ data := _ } : String).data = _ from rfl] at h
  exact congrArg String.mk h

/-- Helper: correctness of the embedded `sort.Search` loop, with enough
fuel, on a predicate that is monotone below `j`: the returned index `r`
satisfies `i <= r <= j`, everything before `r` fails the predicate, and
everything from `r` to `j` satisfies it. -/
theorem goSearchAux_spec (f : Nat → Bool) :
    ∀ fuel i j, i ≤ j → j - i ≤ fuel →
    (∀ k m, k ≤ m → m < j → f k = true → f m = true) →
    i ≤ goSearchAux f fuel i j ∧ goSearchAux f fuel i j ≤ j ∧
    (∀ k, i ≤ k → k < goSearchAux f fuel i j → f k = false) ∧
    (∀ k, goSearchAux f fuel i j ≤ k → k < j → f k = true) := by
  intro fuel
  induction fuel with
  | zero =>
    intro i j hij hfuel hmono
    have hred : goSearchAux f 0 i j = i := rfl
    rw [hred]
    exact ⟨le_rfl, hij, fun k hk1 hk2 => absurd hk2 (by omega),
      fun k hk1 hk2 => absurd hk2 (by omega)⟩
  | succ fuel ih =>
    intro i j hij hfuel hmono
    by_cases hlt : i < j
    · have hm1 : i ≤ (i + j) / 2 := by omega
      have hm2 : (i + j) / 2 < j := by omega
      cases hfm : f ((i + j) / 2) with
      | true =>
        have hred : goSearchAux f (fuel + 1) i j
            = goSearchAux f fuel i ((i + j) / 2) := by
          simp [goSearchAux, hlt, hfm]
        rw [hred]
        have hmono2 : ∀ k m, k ≤ m → m < (i + j) / 2 → f k = true →
            f m = true :=
          fun k m hkm hmj hf => hmono k m hkm (by omega) hf
        obtain ⟨h1, h2, h3, h4⟩ := ih i ((i + j) / 2) hm1 (by omega) hmono2
        refine ⟨h1, by omega, h3, ?_⟩
        intro k hk1 hk2
        by_cases hkm : k < (i + j) / 2
        · exact h4 k hk1 hkm
        · exact hmono ((i + j) / 2) k (by omega) hk2 hfm
      | false =>
        have hred : goSearchAux f (fuel + 1) i j
            = goSearchAux f fuel ((i + j) / 2 + 1) j := by
          simp [goSearchAux, hlt, hfm]
        rw [hred]
        obtain ⟨h1, h2, h3, h4⟩ := ih ((i + j) / 2 + 1) j (by omega)
          (by omega) hmono
        refine ⟨by omega, h2, ?_, h4⟩
        intro k hk1 hk2
        by_cases hkm : (i + j) / 2 + 1 ≤ k
        · exact h3 k hkm hk2
        · cases hfk : f k with
          | false => rfl
          | true =>
            exact absurd (hmono k ((i + j) / 2) (by omega) hm2 hfk)
              (by simp [hfm])
    · have hred : goSearchAux f (fuel + 1) i j = i := by
        simp [goSearchAux, hlt]
      rw [hred]
      exact ⟨le_rfl, hij, fun k hk1 hk2 => absurd hk2 (by omega),
        fun k hk1 hk2 => absurd hk2 (by omega)⟩

/-- Helper: on a sorted list, `sort.SearchStrings` finds `x` exactly
when `x` is a member: the returned index is in bounds and holds `x` iff
`x` occurs in the list. -/
theorem searchStrings_mem (l : List String) (x : String)
    (hsorted : List.Sorted stringLeRel l) :
    (searchStrings l x < l.length ∧ l.getD (searchStrings l x) "" = x)
      ↔ x ∈ l := by
  have hidx : ∀ k m : Nat, k ≤ m → m < l.length →
      stringLe (l.getD k "") (l.getD m "") = true := by
    intro k m hkm hm
    rcases eq_or_lt_of_le hkm with rfl | hlt2
    · exact charListLe_refl _
    · have hk : k < l.length := lt_trans hlt2 hm
      have hrel := List.pairwise_iff_get.mp hsorted ⟨k, hk⟩ ⟨m, hm⟩ hlt2
      rw [List.getD_eq_get l "" hk, List.getD_eq_get l "" hm]
      exact hrel
  have hmono : ∀ k m, k ≤ m → m < l.length →
      stringLe x (l.getD k "") = true → stringLe x (l.getD m "") = true :=
    fun k m hkm hm hk => charListLe_trans _ _ _ hk (hidx k m hkm hm)
  have hspec := goSearchAux_spec (fun i => stringLe x (l.getD i ""))
    l.length 0 l.length (Nat.zero_le _) (by omega) hmono
  obtain ⟨h1, h2, h3, h4⟩ := hspec
  have hrdef : searchStrings l x
      = goSearchAux (fun i => stringLe x (l.getD i "")) l.length 0 l.length :=
    rfl
  rw [hrdef]
  constructor
  · rintro ⟨hr, hrx⟩
    rw [List.getD_eq_get l "" hr] at hrx
    exact hrx ▸ List.get_mem l _ hr
  · intro hx
    obtain ⟨idx, hget⟩ := List.mem_iff_get.mp hx
    have hfidx : stringLe x (l.getD idx "") = true := by
      rw [List.getD_eq_get l "" idx.isLt, hget]
      exact charListLe_refl _
    have hnotlt : ¬ (idx.val <
        goSearchAux (fun i => stringLe x (l.getD i "")) l.length 0 l.length) := by
      intro hcon
      have hfalse : stringLe x (l.getD idx.val "") = false :=
        h3 idx.val (Nat.zero_le _) hcon
      rw [hfalse] at hfidx
      exact absurd hfidx (by simp)
    have hrlen : goSearchAux (fun i => stringLe x (l.getD i "")) l.length 0
        l.length < l.length := by
      have := idx.isLt
      omega
    refine ⟨hrlen, ?_⟩
    have hfr : stringLe x (l.getD (goSearchAux
        (fun i => stringLe x (l.getD i "")) l.length 0 l.length) "") = true :=
      h4 _ le_rfl hrlen
    have hle2 : stringLe (l.getD (goSearchAux
        (fun i => stringLe x (l.getD i "")) l.length 0 l.length) "") x = true := by
      have := hidx (goSearchAux (fun i => stringLe x (l.getD i "")) l.length 0
        l.length) idx.val (by omega) idx.isLt
      rw [List.getD_eq_get l "" idx.isLt, hget] at this
      exact this
    exact stringLe_antisymm _ _ hle2 hfr

/-- Helper: with the gzip list sorted (as `Exec` does with
`sort.Strings`), `matchGzip` holds exactly when the file has a non-empty
extension whose dot-stripped form is a member of the configured list. -/
theorem matchGzip_sorted_iff (g : List String) (file : String) :
    matchGzip (sortStrings g) file = true ↔
      filepathExt file ≠ "" ∧ (filepathExt file).drop 1 ∈ g := by
  unfold matchGzip
  by_cases hext : filepathExt file = ""
  · simp [hext]
  · rw [if_neg hext]
    have hsorted : List.Sorted stringLeRel (sortStrings g) :=
      List.sorted_insertionSort stringLeRel g
    have hperm : (sortStrings g).Perm g := List.perm_insertionSort stringLeRel g
    have hmem := searchStrings_mem (sortStrings g)
      ((filepathExt file).drop 1) hsorted
    constructor
    · intro h
      simp only [Bool.and_eq_true, decide_eq_true_eq] at h
      exact ⟨hext, hperm.mem_iff.mp (hmem.mp ⟨h.1, h.2⟩)⟩
    · rintro ⟨-, hm⟩
      have hin := hmem.mpr (hperm.mem_iff.mpr hm)
      simp only [Bool.and_eq_true, decide_eq_true_eq]
      exact ⟨hin.1, hin.2⟩

/-- Helper: `uploadFile` on the success path writes the object with the
attributes assigned by the source, in particular content-encoding "gzip"
exactly when `matchGzip` chose compression, and the raw byte stream
otherwise. -/
theorem uploadFile_ok_attrs (gzipList acl : List String) (cc : String)
    (md : List (String × String)) (mimeOf : String → String)
    (target rel : String) (bytes : List Nat) (file : String)
    (rules : List (String × String))
    (hba : buildACL (pathJoin target rel) acl = .ok rules) :
    uploadFile gzipList acl cc md mimeOf target none (.ok rel) none bytes file =
      ⟨true, .ok
        { name := pathJoin target rel
          cacheControl := cc
          metadata := md
          aclRules := rules
          contentType := (if mimeOf (filepathExt file) = ""
            then "application/octet-stream" else mimeOf (filepathExt file))
          contentEncoding := (if matchGzip gzipList file then "gzip" else "")
          body := (if matchGzip gzipList file then .gzipped bytes
            else .raw bytes) }⟩ := by
  unfold uploadFile
  simp only [hba]

/-- Helper: `uploadFile` returns the ACL error when the ACL loop fails. -/
theorem uploadFile_acl_error (gzipList acl : List String) (cc : String)
    (md : List (String × String)) (mimeOf : String → String)
    (target rel : String) (bytes : List Nat) (file : String) (e : String)
    (hba : buildACL (pathJoin target rel) acl = .error e) :
    uploadFile gzipList acl cc md mimeOf target none (.ok rel) none bytes file
      = ⟨true, .error e⟩ := by
  unfold uploadFile
  simp only [hba]

/-- C7: for every uploaded object (an `uploadFile` call that succeeds,
with the gzip list sorted as `Exec` establishes), the content-encoding
attribute equals "gzip" iff the file has a non-empty extension whose
dot-stripped form is a case-sensitive exact member of the configured
gzip extension list; otherwise the content-encoding is left unset (the
empty string, Go's zero value) and the object body is the file's bytes
verbatim, uncompressed. -/
theorem c7_content_encoding (g acl : List String) (cc : String)
    (md : List (String × String)) (mimeOf : String → String)
    (target rel : String) (bytes : List Nat) (file : String)
    (a : ObjectAttrs)
    (h : (uploadFile (sortStrings g) acl cc md mimeOf target none
        (.ok rel) none bytes file).result = .ok a) :
    (a.contentEncoding = "gzip" ↔
      filepathExt file ≠ "" ∧ (filepathExt file).drop 1 ∈ g) ∧
    (a.contentEncoding ≠ "gzip" →
      a.contentEncoding = "" ∧ a.body = Body.raw bytes) := by
  rcases hba : buildACL (pathJoin target rel) acl with e | rules
  · rw [uploadFile_acl_error (sortStrings g) acl cc md mimeOf target rel
      bytes file e hba] at h
    simp at h
  · rw [uploadFile_ok_attrs (sortStrings g) acl cc md mimeOf target rel
      bytes file rules hba] at h
    simp only [Except.ok.injEq] at h
    subst h
    cases hgz : matchGzip (sortStrings g) file with
    | true =>
      exact ⟨⟨fun _ => (matchGzip_sorted_iff g file).mp hgz, fun _ => rfl⟩,
        fun hne => absurd rfl hne⟩
    | false =>
      refine ⟨⟨fun hcontra => ?_, fun hmem => ?_⟩, fun _ => ⟨rfl, rfl⟩⟩
      · exact absurd (show ("" : String) = "gzip" from hcontra) (by decide)
      · have hmg := (matchGzip_sorted_iff g file).mpr hmem
        rw [hgz] at hmg
        exact absurd hmg (by decide)

/-- Witness for C7: file `a.js` with configured gzip list `["js"]`. -/
theorem c7_content_encoding_witness :
    (({
        name := "dir/a.js", cacheControl := "", metadata := [],
        aclRules := [], contentType := "application/octet-stream",
        contentEncoding := "gzip",
        body := Body.gzipped [1, 2] } : ObjectAttrs).contentEncoding = "gzip" ↔
      filepathExt "a.js" ≠ "" ∧ (filepathExt "a.js").drop 1 ∈ ["js"]) ∧
    (({
        name := "dir/a.js", cacheControl := "", metadata := [],
        aclRules := [], contentType := "application/octet-stream",
        contentEncoding := "gzip",
        body := Body.gzipped [1, 2] } : ObjectAttrs).contentEncoding ≠ "gzip" →
      ({
        name := "dir/a.js", cacheControl := "", metadata := [],
        aclRules := [], contentType := "application/octet-stream",
        contentEncoding := "gzip",
        body := Body.gzipped [1, 2] } : ObjectAttrs).contentEncoding = "" ∧
      ({
        name := "dir/a.js", cacheControl := "", metadata := [],
        aclRules := [], contentType := "application/octet-stream",
        contentEncoding := "gzip",
        body := Body.gzipped [1, 2] } : ObjectAttrs).body = Body.raw [1, 2]) :=
  c7_content_encoding ["js"] [] "" [] (fun _ => "") "dir" "a.js" [1, 2]
    "a.js" _ rfl

/-- Helper: splitting a list that does not contain the separator yields
the single field. -/
theorem splitCharList_no_sep (sep : Char) :
    ∀ l : List Char, sep ∉ l → splitCharList sep l = [l] := by
  intro l h
  induction l with
  | nil => rfl
  | cons c cs ih =>
    rw [List.mem_cons] at h
    push_neg at h
    have hc : ¬ c = sep := fun hh => h.1 hh.symm
    have hrec := ih h.2
    simp [splitCharList, hc, hrec]

/-- Helper: splitting at the first separator occurrence peels off the
separator-free prefix as one field. -/
theorem splitCharList_append (sep : Char) :
    ∀ a b : List Char, sep ∉ a →
      splitCharList sep (a ++ sep :: b) = a :: splitCharList sep b := by
  intro a b ha
  induction a with
  | nil => simp [splitCharList]
  | cons c cs ih =>
    rw [List.mem_cons] at ha
    push_neg at ha
    have hc : ¬ c = sep := fun hh => ha.1 hh.symm
    have hrec := ih ha.2
    simp [splitCharList, hc, hrec]

/-- C6: the ignore specification is split on commas into multiple
trimmed non-empty glob patterns, and a file is dropped exactly when any
one of them matches the file's path relative to its base directory: for
an ignore spec made of two comma-separated patterns (already trimmed,
non-empty, comma-free), the ignore decision is the disjunction of the
two individual pattern matches against the relative path -- in
particular a file matching only the second pattern is excluded. -/
theorem c6_ignore_comma_split (p₁ p₂ : String)
    (h₁ : ',' ∉ p₁.data) (h₂ : ',' ∉ p₂.data)
    (ht₁ : trimString p₁ = p₁) (ht₂ : trimString p₂ = p₂)
    (hn₁ : p₁ ≠ "") (hn₂ : p₂ ≠ "")
    (base file : String) :
    shouldIgnoreFile (p₁ ++ "," ++ p₂) base file =
      (globMatch p₁.data (relTo base file).data
        || globMatch p₂.data (relTo base file).data) := by
  have hdata : (p₁ ++ "," ++ p₂).data = p₁.data ++ ',' :: p₂.data := by
    simp [String.data_append]
  have hne : (p₁ ++ "," ++ p₂) ≠ "" := by
    intro hcon
    have hd : (p₁ ++ "," ++ p₂).data = [] := by rw [hcon]
    rw [hdata] at hd
    simp at hd
  have hsplit : splitOnChar ',' (p₁ ++ "," ++ p₂) = [p₁, p₂] := by
    unfold splitOnChar
    rw [hdata, splitCharList_append ',' p₁.data p₂.data h₁,
      splitCharList_no_sep ',' p₂.data h₂]
    rfl
  unfold shouldIgnoreFile
  rw [if_neg hne, hsplit]
  simp only [List.map_cons, List.map_nil, ht₁, ht₂, List.filter_cons,
    List.filter_nil]
  simp [hn₁, hn₂]

/-- Witness for C6: ignore spec `*.log,*.tmp` over base `/src` and file
`/src/cache.tmp` -- the file matches only the second pattern and is
excluded. -/
theorem c6_ignore_comma_split_witness :
    shouldIgnoreFile ("*.log" ++ "," ++ "*.tmp") "/src" "/src/cache.tmp" =
      (globMatch "*.log".data (relTo "/src" "/src/cache.tmp").data
        || globMatch "*.tmp".data (relTo "/src" "/src/cache.tmp").data) ∧
    shouldIgnoreFile ("*.log" ++ "," ++ "*.tmp") "/src" "/src/cache.tmp"
      = true ∧
    globMatch "*.log".data (relTo "/src" "/src/cache.tmp").data = false ∧
    globMatch "*.tmp".data (relTo "/src" "/src/cache.tmp").data = true :=
  ⟨c6_ignore_comma_split "*.log" "*.tmp" (by decide) (by decide) (by decide)
      (by decide) (by decide) (by decide) "/src" "/src/cache.tmp",
   by decide, by decide, by decide⟩

end DroneGcs
